import Mathlib

/-!
Verification development for the StockTracker portfolio accounting engine
(`portfolio.py`, `profit_breakdown.py`, `profit_analysis.py`).

Modelling conventions of the shallow embedding:
* Python floats are modelled as exact rationals (`Rat`); the arithmetic in the
  source is plain `+ - * /` on floats and every claim is about the algebraic
  relations between those operations.
* Python dicts (which preserve insertion order) are modelled as association
  lists with in-place update (`ainsert`), first-hit deletion (`aerase`) and
  front-to-back lookup (`alookup`).
* A ledger transaction is the 4-tuple `[action, date, shares, price]` of
  `portfolio.py`.  Action strings are kept as strings and compared after
  lowercasing (`pyLower`), exactly as the source does.  Dates are modelled as
  integers (`strptime` on `YYYY-MM-DD` strings is monotone, and no claim
  depends on the textual form of a date).
* A raw ledger entry whose unpacking or `float()` conversion raises in Python
  is modelled by `RawTx.bad`; a well-formed entry is `RawTx.good t`.
* Exceptions are modelled with `Option`/`Except`: a function that can raise
  returns `none`/`.error` on the raising paths.
-/

/-- Python `str.lower()` (the action strings of the ledger are ASCII).
`String.toLower` itself is avoided only because its `mapAux` recursion does
not reduce in the kernel; this is the same character-wise mapping. -/
def pyLower (s : String) : String := ⟨s.data.map Char.toLower⟩

/-- Association-list lookup, modelling Python `dict[key]` / `dict.get`. -/
def alookup (k : String) : List (String × α) → Option α
  | [] => none
  | (k', v) :: t => if k' = k then some v else alookup k t

/-- Association-list insert, modelling Python `dict[key] = value`
(an existing key keeps its position, a new key is appended). -/
def ainsert (k : String) (v : α) : List (String × α) → List (String × α)
  | [] => [(k, v)]
  | (k', v') :: t => if k' = k then (k, v) :: t else (k', v') :: ainsert k v t

/-- Association-list delete, modelling Python `del dict[key]`. -/
def aerase (k : String) : List (String × α) → List (String × α)
  | [] => []
  | (k', v') :: t => if k' = k then t else (k', v') :: aerase k t

/-- A well-formed ledger transaction `[action, date, shares, price]`
after the `float()` conversions of `portfolio.py`. -/
structure Tx where
  action : String
  date : Int
  shares : Rat
  price : Rat
deriving DecidableEq

/-- A raw ledger entry: `good` is an entry whose unpacking and `float()`
conversions succeed, `bad` is an entry on which they raise. -/
inductive RawTx
  | good (t : Tx)
  | bad
deriving DecidableEq

/-- A holding, i.e. one value of the `self.stocks` dict:
`{"shares": ..., "purchase_price": ..., "remaining_cost": ...}`.
The `purchase_price` key is always present but may hold `None`;
the `remaining_cost` key is present only on holdings written by
`import_from_json` (`add_stock` writes a fresh dict without it). -/
structure Holding where
  shares : Rat
  purchase_price : Option Rat
  remaining_cost : Option Rat
deriving DecidableEq

/-- The `Portfolio` object: `stocks`, `transactions`, `realized_profits`. -/
structure Portfolio where
  stocks : List (String × Holding)
  transactions : List (String × List RawTx)
  realized_profits : List (String × Rat)
deriving DecidableEq

/-- The empty portfolio built by `Portfolio.__init__`. -/
def Portfolio.empty : Portfolio := ⟨[], [], []⟩

/-- `Portfolio.add_stock` (portfolio.py lines 18-58).  Every branch writes a
fresh two-key dict, so the stored holding never carries `remaining_cost`. -/
def add_stock (p : Portfolio) (symbol : String) (shares : Rat)
    (purchase_price : Option Rat) : Portfolio :=
  match alookup symbol p.stocks with
  | some h =>
    match purchase_price with
    | some pp =>
      match h.purchase_price with
      | some old_pp =>
        let old_value := h.shares * old_pp
        let new_value := shares * pp
        let total_shares := h.shares + shares
        let new_avg_price := (old_value + new_value) / total_shares
        { p with stocks := ainsert symbol ⟨total_shares, some new_avg_price, none⟩ p.stocks }
      | none =>
        { p with stocks := ainsert symbol ⟨h.shares + shares, some pp, none⟩ p.stocks }
    | none =>
      { p with stocks := ainsert symbol ⟨h.shares + shares, h.purchase_price, none⟩ p.stocks }
  | none =>
    { p with stocks := ainsert symbol ⟨shares, purchase_price, none⟩ p.stocks }

/-- `Portfolio.remove_stock` (portfolio.py lines 60-85). -/
def remove_stock (p : Portfolio) (symbol : String) (shares : Option Rat) :
    Portfolio × Bool :=
  match alookup symbol p.stocks with
  | none => (p, false)
  | some h =>
    match shares with
    | none => ({ p with stocks := aerase symbol p.stocks }, true)
    | some q =>
      if q ≥ h.shares then
        ({ p with stocks := aerase symbol p.stocks }, true)
      else
        let h' : Holding := { h with shares := h.shares - q }
        if h'.shares ≤ 0 then ({ p with stocks := aerase symbol p.stocks }, true)
        else ({ p with stocks := ainsert symbol h' p.stocks }, true)

/-- The running state of the per-symbol replay loop of `import_from_json`
(portfolio.py lines 294-346).  `warnings` counts the oversell warnings
printed at line 344.  The dead local `buy_transactions` (collected but never
read afterwards) is omitted. -/
structure ReplayState where
  total_shares : Rat
  total_cost : Rat
  total_realized_profit : Rat
  running_avg_cost : Rat
  shares_owned : Rat
  warnings : Nat
deriving DecidableEq

/-- The initial replay state of `import_from_json`. -/
def initReplay : ReplayState := ⟨0, 0, 0, 0, 0, 0⟩

/-- One iteration of the replay loop (portfolio.py lines 303-346). -/
def replayStep (st : ReplayState) (t : Tx) : ReplayState :=
  if pyLower t.action = "bought" then
    let st1 :=
      if st.shares_owned > 0 then
        let old_value := st.shares_owned * st.running_avg_cost
        let new_value := t.shares * t.price
        let new_total_shares := st.shares_owned + t.shares
        { st with running_avg_cost := (old_value + new_value) / new_total_shares }
      else
        { st with running_avg_cost := t.price }
    { st1 with
        shares_owned := st1.shares_owned + t.shares
        total_shares := st1.total_shares + t.shares
        total_cost := st1.total_cost + t.shares * t.price }
  else if pyLower t.action = "sold" then
    if st.shares_owned ≥ t.shares then
      let cost_basis := st.running_avg_cost * t.shares
      let sale_proceeds := t.price * t.shares
      let realized_profit := sale_proceeds - cost_basis
      { st with
          total_realized_profit := st.total_realized_profit + realized_profit
          shares_owned := st.shares_owned - t.shares
          total_shares := st.total_shares - t.shares }
    else
      { st with warnings := st.warnings + 1 }
  else st

/-- Replay of a (well-formed) transaction list. -/
def replayList (st : ReplayState) : List Tx → ReplayState
  | [] => st
  | t :: ts => replayList (replayStep st t) ts

/-- Replay of a raw transaction list: hitting a `bad` entry raises, which
aborts the whole import (`none`). -/
def replayRaw (st : ReplayState) : List RawTx → Option ReplayState
  | [] => some st
  | RawTx.good t :: ts => replayRaw (replayStep st t) ts
  | RawTx.bad :: _ => none

/-- The parsed shape of the import file: `malformed` models a file on which
`open`/`json.load` raises, `parsed` the resulting symbol → raw-entry map. -/
inductive ImportData
  | malformed
  | parsed (entries : List (String × List RawTx))

/-- The per-symbol body of `import_from_json` (portfolio.py lines 291-362),
threading the portfolio being rebuilt.  A raised exception inside the loop is
caught at line 365: the function returns `False` with the partially rebuilt
state left in place. -/
def importGo (p : Portfolio) : List (String × List RawTx) → Portfolio × Bool
  | [] => (p, true)
  | (symbol, txs) :: rest =>
    let p1 := { p with transactions := ainsert symbol txs p.transactions }
    match replayRaw initReplay txs with
    | none => (p1, false)
    | some st =>
      let p2 :=
        if st.total_realized_profit ≠ 0 then
          { p1 with realized_profits :=
              ainsert symbol st.total_realized_profit p1.realized_profits }
        else p1
      let remaining_cost := st.total_shares * st.running_avg_cost
      let newHolding : Holding :=
        ⟨st.total_shares, some st.running_avg_cost, some remaining_cost⟩
      let p3 :=
        if st.total_shares > 0 then
          { p2 with stocks := ainsert symbol newHolding p2.stocks }
        else p2
      importGo p3 rest

/-- `Portfolio.import_from_json` (portfolio.py lines 271-367).  A malformed
file raises in `json.load` before the portfolio is cleared, so the prior
state survives; once parsing succeeded the three dicts are cleared and the
entries are processed one by one. -/
def import_from_json (p : Portfolio) : ImportData → Portfolio × Bool
  | ImportData.malformed => (p, false)
  | ImportData.parsed entries => importGo Portfolio.empty entries

/-- One row of `Portfolio.get_portfolio_data` (portfolio.py lines 113-131).
The `gain_loss` / `gain_loss_percent` keys exist only when the purchase price
is present (line 123). -/
structure StockInfo where
  symbol : String
  shares : Rat
  current_price : Rat
  current_value : Rat
  purchase_price : Option Rat
  remaining_cost : Rat
  gain_loss : Option Rat
  gain_loss_percent : Option Rat
deriving DecidableEq

/-- The loop body of `get_portfolio_data` (portfolio.py lines 99-135) for one
symbol.  `priceOf symbol = none` models an empty price frame (the symbol is
silently skipped, line 104).  When `purchase_price` is `None`, evaluating the
eager default `data["purchase_price"] * data["shares"]` of the `.get` call at
line 110 raises a `TypeError`, which the per-symbol `except` catches: the
symbol is skipped. -/
def snapshotEntry (priceOf : String → Option Rat) (symbol : String)
    (h : Holding) : Option StockInfo :=
  match priceOf symbol with
  | none => none
  | some current_price =>
    match h.purchase_price with
    | none => none
    | some pp =>
      let current_value := current_price * h.shares
      let remaining_cost := h.remaining_cost.getD (pp * h.shares)
      let gain_loss := current_value - remaining_cost
      let gain_loss_percent := (current_price / pp - 1) * 100
      some ⟨symbol, h.shares, current_price, current_value, some pp,
            remaining_cost, some gain_loss, some gain_loss_percent⟩

/-- `Portfolio.get_portfolio_data` (portfolio.py lines 87-137). -/
def get_portfolio_data (priceOf : String → Option Rat) (p : Portfolio) :
    List StockInfo :=
  p.stocks.filterMap fun x => snapshotEntry priceOf x.1 x.2

/-- Extracts the well-formed transactions of a raw list; `none` when some
entry makes the unpacking or a `float()` call raise. -/
def goodTxs : List RawTx → Option (List Tx)
  | [] => some []
  | RawTx.good t :: ts => (goodTxs ts).map (t :: ·)
  | RawTx.bad :: _ => none

/-- One entry of `metrics["stocks_metrics"]` (portfolio.py lines 470-485).
The time-based fields (`days_held`, `annual_return`, `earliest_date`) depend
on the wall clock and on real exponentiation and are not modelled; no claim
mentions them. -/
structure StockMetrics where
  symbol : String
  shares : Rat
  current_price : Rat
  current_value : Rat
  initial_investment : Rat
  gain_loss : Rat
  gain_loss_pct : Rat
  realized_profit : Rat
deriving DecidableEq

/-- The result of `get_performance_metrics` (portfolio.py lines 398-405,
487-518). -/
structure Metrics where
  total_invested : Rat
  total_current_value : Rat
  total_gain_loss : Rat
  total_gain_loss_pct : Rat
  total_realized_profit : Rat
  stocks_metrics : List StockMetrics
  realized_profits_by_symbol : List (String × Rat)
deriving DecidableEq

/-- The loop body of `get_performance_metrics` for one ledger symbol
(portfolio.py lines 408-485).  `.ok none` models `continue`
(symbol not held, or empty price data); `.error ()` models an uncaught
exception: a malformed raw entry in the transaction loop, or — when
`purchase_price` is `None` — the eager default `shares * purchase_price`
of the `.get` at line 441 raising a `TypeError`. -/
def symbolMetrics (priceOf : String → Option Rat) (p : Portfolio)
    (symbol : String) (rawTxs : List RawTx) : Except Unit (Option StockMetrics) :=
  match alookup symbol p.stocks with
  | none => .ok none
  | some h =>
    match priceOf symbol with
    | none => .ok none
    | some current_price =>
      let shares := h.shares
      match goodTxs rawTxs with
      | none => .error ()
      | some txs =>
        let initial_investment := txs.foldl
          (fun acc t =>
            if pyLower t.action = "bought" then acc + t.shares * t.price else acc) 0
        let current_value := shares * current_price
        match h.purchase_price with
        | none => .error ()
        | some purchase_price =>
          let remaining_cost := h.remaining_cost.getD (shares * purchase_price)
          let gain_loss := current_value - remaining_cost
          let gain_loss_pct :=
            if remaining_cost > 0 then gain_loss / remaining_cost * 100 else 0
          let realized_profit := (alookup symbol p.realized_profits).getD 0
          .ok (some ⟨symbol, shares, current_price, current_value,
                     initial_investment, gain_loss, gain_loss_pct, realized_profit⟩)

/-- The `stocks_metrics` accumulation loop over the ledger symbols. -/
def metricsList (priceOf : String → Option Rat) (p : Portfolio) :
    List (String × List RawTx) → Option (List StockMetrics)
  | [] => some []
  | (s, rawTxs) :: rest =>
    match symbolMetrics priceOf p s rawTxs with
    | .error _ => none
    | .ok none => metricsList priceOf p rest
    | .ok (some m) => (metricsList priceOf p rest).map (m :: ·)

/-- `Portfolio.get_performance_metrics` (portfolio.py lines 391-520).
The `remaining_investment` sum at lines 492-495 reads
`self.stocks[symbol].get("remaining_cost", 0)` — note the `0` default, unlike
the per-stock pass; the `self.stocks[...]` indexing cannot raise because
every emitted entry's symbol is in `stocks`.  Line 508 overwrites
`total_invested` with `remaining_investment`. -/
def get_performance_metrics (priceOf : String → Option Rat) (p : Portfolio) :
    Option Metrics :=
  (metricsList priceOf p p.transactions).map fun sms =>
    let total_current_value : Rat := sms.foldl (fun a m => a + m.current_value) 0
    let remaining_investment : Rat := sms.foldl
      (fun a m =>
        a + ((alookup m.symbol p.stocks).elim 0 fun h => h.remaining_cost.getD 0)) 0
    let total_gain_loss := total_current_value - remaining_investment
    let total_gain_loss_pct :=
      if remaining_investment > 0 then total_gain_loss / remaining_investment * 100
      else 0
    let total_realized_profit := p.realized_profits.foldl (fun a pr => a + pr.2) 0
    ⟨remaining_investment, total_current_value, total_gain_loss,
     total_gain_loss_pct, total_realized_profit, sms, p.realized_profits⟩

/-- One entry of `breakdown["by_stock"]` (profit_breakdown.py lines 47-120). -/
structure StockBreakdown where
  symbol : String
  total_bought : Rat
  total_bought_value : Rat
  total_sold : Rat
  total_sold_value : Rat
  current_shares : Rat
  current_value : Rat
  current_price : Rat
  realized_profit : Rat
  unrealized_profit : Rat
  total_profit : Rat
  profit_pct : Rat
  average_cost : Rat
  roi : Rat
deriving DecidableEq

/-- `breakdown["summary"]` (profit_breakdown.py lines 26-32, 128-153).  The
two fraction keys (source names `realized_` and `unrealized_ratio`) are set
only when `total_profit` is nonzero; consumers read them with
`summary.get(..., 0)` (profit_analysis.py lines 93-94). -/
structure BreakdownSummary where
  total_invested : Rat
  current_value : Rat
  total_realized : Rat
  total_unrealized : Rat
  total_profit : Rat
  realized_part : Option Rat
  unrealized_part : Option Rat
deriving DecidableEq

/-- The result of `calculate_profit_breakdown` (the `historical` key is
initialised empty and never filled; it is omitted). -/
structure Breakdown where
  by_stock : List StockBreakdown
  summary : BreakdownSummary
deriving DecidableEq

/-- The per-symbol body of the `by_stock` loop
(profit_breakdown.py lines 46-123).  `none` models the `float()` calls at
lines 64-65 raising on a malformed raw entry. -/
def stockBreakdownOf (p : Portfolio) (portfolio_data : List StockInfo)
    (symbol : String) : Option StockBreakdown :=
  match goodTxs ((alookup symbol p.transactions).getD []) with
  | none => none
  | some txs =>
    let realized_profit := (alookup symbol p.realized_profits).getD 0
    let total_bought : Rat := txs.foldl
      (fun a t => if pyLower t.action = "bought" then a + t.shares else a) 0
    let total_bought_value : Rat := txs.foldl
      (fun a t => if pyLower t.action = "bought" then a + t.shares * t.price else a) 0
    let total_sold : Rat := txs.foldl
      (fun a t => if pyLower t.action = "sold" then a + t.shares else a) 0
    let total_sold_value : Rat := txs.foldl
      (fun a t => if pyLower t.action = "sold" then a + t.shares * t.price else a) 0
    let holdingData : Rat × Rat × Rat × Rat :=
      match alookup symbol p.stocks with
      | some h =>
        match portfolio_data.find? (fun si => si.symbol = symbol) with
        | some si => (si.shares, si.current_value, si.current_price, si.gain_loss.getD 0)
        | none => (h.shares, 0, 0, 0)
      | none => (0, 0, 0, 0)
    let current_shares := holdingData.1
    let current_value := holdingData.2.1
    let current_price := holdingData.2.2.1
    let unrealized_profit := holdingData.2.2.2
    let total_profit := realized_profit + unrealized_profit
    let profit_pct :=
      if total_bought_value > 0 then total_profit / total_bought_value * 100 else 0
    let average_cost :=
      if total_bought > 0 then total_bought_value / total_bought else 0
    let initial_investment := total_bought_value - total_sold_value
    let roi :=
      if initial_investment > 0 then total_profit / initial_investment * 100 else 0
    some ⟨symbol, total_bought, total_bought_value, total_sold, total_sold_value,
          current_shares, current_value, current_price, realized_profit,
          unrealized_profit, total_profit, profit_pct, average_cost, roi⟩

/-- Option-valued map over a list, `none` if any element maps to `none`
(models a loop that can raise). -/
def collectSome (f : α → Option β) : List α → Option (List β)
  | [] => some []
  | a :: t =>
    match f a, collectSome f t with
    | some b, some bs => some (b :: bs)
    | _, _ => none

/-- Stable insertion (from the right) for the descending sort of `by_stock`
by `total_profit` (profit_breakdown.py line 126; Python `list.sort` with
`reverse=True` is stable). -/
def insProfitDesc (x : StockBreakdown) : List StockBreakdown → List StockBreakdown
  | [] => [x]
  | h :: t => if h.total_profit > x.total_profit then h :: insProfitDesc x t else x :: h :: t

/-- Stable descending sort of `by_stock` by `total_profit`. -/
def sortProfitDesc : List StockBreakdown → List StockBreakdown
  | [] => []
  | x :: t => insProfitDesc x (sortProfitDesc t)

/-- `calculate_profit_breakdown` (profit_breakdown.py lines 10-155).
`none` covers both the explicit `return None` at line 21 and an exception
propagating out of `get_performance_metrics` or the `float()` conversions
of the `by_stock` loop.  The symbol union at lines 42-43 is a Python `set`
with unspecified iteration order; it is modelled as the holdings' keys
followed by the realized-only keys (the order only permutes `by_stock`
between equal `total_profit` values and no claim depends on it). -/
def calculate_profit_breakdown (priceOf : String → Option Rat) (p : Portfolio) :
    Option Breakdown :=
  if p.stocks = [] ∧ p.realized_profits = [] then none
  else
    let portfolio_data := get_portfolio_data priceOf p
    match get_performance_metrics priceOf p with
    | none => none
    | some metrics =>
      let stockKeys := p.stocks.map Prod.fst
      let all_symbols :=
        stockKeys ++ (p.realized_profits.map Prod.fst).filter (fun s => ¬ stockKeys.contains s)
      match collectSome (stockBreakdownOf p portfolio_data) all_symbols with
      | none => none
      | some entries =>
        let by_stock := sortProfitDesc entries
        let total_realized := metrics.total_realized_profit
        let total_unrealized := metrics.total_gain_loss
        let total_profit := total_realized + total_unrealized
        let realized_part :=
          if total_profit ≠ 0 then some (total_realized / total_profit) else none
        let unrealized_part :=
          if total_profit ≠ 0 then some (total_unrealized / total_profit) else none
        some ⟨by_stock,
              ⟨metrics.total_invested, metrics.total_current_value, total_realized,
               total_unrealized, total_profit, realized_part, unrealized_part⟩⟩

/-- One exported row of `export_transactions_csv`
(profit_analysis.py lines 241-251); the CSV serialisation itself is elided,
a row keeps the exact field values. -/
structure CsvRow where
  date : Int
  symbol : String
  action : String
  shares : Rat
  price : Rat
  total_value : Rat
  profit : Option Rat
deriving DecidableEq

/-- Builds one export row (profit_analysis.py lines 209-251).  The matching
inner loop at lines 219-239 always finds the row's own transaction, so the
`Profit/Loss` cell reduces to the even per-share allocation guarded by
`symbol_total_sold_shares > 0`; `none` models the empty cell. -/
def csvRowOf (realized : List (String × Rat)) (symTxs : List Tx)
    (symbol : String) (t : Tx) : CsvRow :=
  let total_value := t.shares * t.price
  let profit : Option Rat :=
    if pyLower t.action = "sold" ∧ (alookup symbol realized).isSome then
      let symbol_total_sold_shares : Rat := symTxs.foldl
        (fun a x => if pyLower x.action = "sold" then a + x.shares else a) 0
      if symbol_total_sold_shares > 0 then
        some ((alookup symbol realized).getD 0 / symbol_total_sold_shares * t.shares)
      else none
    else none
  ⟨t.date, symbol, t.action, t.shares, t.price, total_value, profit⟩

/-- A ledger whose raw entries all parsed: the shape `transactions` has after
a successful import, with the `float()` conversions already applied. -/
abbrev Ledger := List (String × List Tx)

/-- The unsorted export rows: one row per transaction of every symbol
(profit_analysis.py lines 206-251). -/
def flatRows (realized : List (String × Rat)) (ledger : Ledger) : List CsvRow :=
  ledger.foldr (fun pr acc => pr.2.map (csvRowOf realized pr.2 pr.1) ++ acc) []

/-- Stable insertion for the date-descending sort (Python
`list.sort(key=..., reverse=True)` is stable: rows with equal dates keep
their original relative order). -/
def insRowDesc (x : CsvRow) : List CsvRow → List CsvRow
  | [] => [x]
  | h :: t => if h.date > x.date then h :: insRowDesc x t else x :: h :: t

/-- Stable date-descending sort of the export rows
(profit_analysis.py lines 254-256). -/
def sortRowsDesc : List CsvRow → List CsvRow
  | [] => []
  | x :: t => insRowDesc x (sortRowsDesc t)

/-- Stable insertion for a date-ascending re-sort of exported rows. -/
def insRowAsc (x : CsvRow) : List CsvRow → List CsvRow
  | [] => [x]
  | h :: t => if h.date < x.date then h :: insRowAsc x t else x :: h :: t

/-- Stable date-ascending sort, the canonical way to rebuild chronological
order from an export. -/
def sortRowsAsc : List CsvRow → List CsvRow
  | [] => []
  | x :: t => insRowAsc x (sortRowsAsc t)

/-- `export_transactions_csv` (profit_analysis.py lines 194-266) restricted
to its data content: every Buy/Sell row with exact date/symbol/action/shares/
price, sorted by date, newest first. -/
def export_transactions_csv (realized : List (String × Rat)) (ledger : Ledger) :
    List CsvRow :=
  sortRowsDesc (flatRows realized ledger)

/-- Reads a transaction back from an exported row. -/
def rowToTx (r : CsvRow) : Tx := ⟨r.action, r.date, r.shares, r.price⟩

/-- Rebuilds a structured import record from exported rows after restoring
chronological (date-ascending) order, grouping the rows by symbol. -/
def rebuildLedger (ledger : Ledger) (rows : List CsvRow) : Ledger :=
  ledger.map fun pr =>
    (pr.1, ((sortRowsAsc rows).filter (fun r => r.symbol = pr.1)).map rowToTx)

/-- Rebuilds a structured import record from exported rows keeping the
export's own (date-descending) row order, grouping the rows by symbol. -/
def rebuildLedgerExportOrder (ledger : Ledger) (rows : List CsvRow) : Ledger :=
  ledger.map fun pr =>
    (pr.1, (rows.filter (fun r => r.symbol = pr.1)).map rowToTx)

/-- Wraps a parsed ledger back into raw entries for `import_from_json`. -/
def toRawLedger (ledger : Ledger) : List (String × List RawTx) :=
  ledger.map fun pr => (pr.1, pr.2.map RawTx.good)

/-! ### Concrete fixtures used by witnesses and counterexamples -/

/-- The Buy of 10 shares at 100 from the spec's worked example. -/
def buyTx : Tx := ⟨"Bought", 1, 10, 100⟩

/-- The Sell of 4 shares at 150 from the spec's worked example. -/
def sellTx : Tx := ⟨"Sold", 2, 4, 150⟩

/-- A second buy, used to exercise the weighted average. -/
def buyTx2 : Tx := ⟨"Bought", 2, 30, 110⟩

/-- The one-symbol ledger of the spec's worked example. -/
def demoLedger : Ledger := [("A", [buyTx, sellTx])]

/-- The portfolio produced by importing `demoLedger`. -/
def demoPortfolio : Portfolio :=
  (import_from_json Portfolio.empty (ImportData.parsed (toRawLedger demoLedger))).1

/-- A price provider quoting 150 for every symbol. -/
def demoPrices : String → Option Rat := fun _ => some 150

/-- A price provider with no data for any symbol. -/
def noPrices : String → Option Rat := fun _ => none

/-- The portfolio produced by importing a single buy of `buyTx`. -/
def oneBuyPortfolio : Portfolio :=
  (import_from_json Portfolio.empty
    (ImportData.parsed [("A", [RawTx.good buyTx])])).1

/-- A portfolio whose only position was fully sold: no holdings, one
realized-profit entry, a ledger for the sold symbol. -/
def soldOutP : Portfolio := ⟨[], [("A", [RawTx.good buyTx])], [("A", 200)]⟩

/-- The breakdown `calculate_profit_breakdown` returns on `soldOutP` with no
price data (the realized-only symbol contributes all the profit). -/
def c6Breakdown : Breakdown :=
  ⟨[⟨"A", 10, 1000, 0, 0, 0, 0, 0, 200, 0, 200, 20, 100, 20⟩],
   ⟨0, 0, 200, 0, 200, some 1, some 0⟩⟩

/-! ### Shared helper lemmas -/

theorem pyLower_Bought : pyLower "Bought" = "bought" := by decide

theorem pyLower_Sold : pyLower "Sold" = "sold" := by decide

theorem sold_ne_bought : ¬ (("sold" : String) = "bought") := by decide

theorem strA_ne_strB : ¬ (("A" : String) = "B") := by decide

theorem bought_ne_sold : ¬ (("bought" : String) = "sold") := by decide

theorem alookup_ainsert_self (k : String) (v : α) (m : List (String × α)) :
    alookup k (ainsert k v m) = some v := by
  induction m with
  | nil => simp [ainsert, alookup]
  | cons pr t ih =>
    by_cases hk : pr.1 = k
    · simp [ainsert, alookup, hk]
    · simp [ainsert, alookup, hk, ih]

theorem alookup_ainsert_ne (k k' : String) (hne : k' ≠ k) (v : α)
    (m : List (String × α)) : alookup k' (ainsert k v m) = alookup k' m := by
  have hkk : ¬ k = k' := fun h => hne h.symm
  induction m with
  | nil => simp [ainsert, alookup, hkk]
  | cons pr t ih =>
    obtain ⟨a, b⟩ := pr
    by_cases hk : a = k
    · subst hk
      simp [ainsert, alookup, hkk]
    · simp [ainsert, alookup, hk, ih]

/-! ### Claim C1 -/

/-- Claim C1: during ledger replay, a Sell of `q` shares at price `p` applied
when `shares_owned >= q` adds exactly `p*q - running_avg_cost*q` to the
realized-profit accumulator, subtracts `q` from `shares_owned`, and leaves
`running_avg_cost` unchanged; replaying `[Buy 10@100, Sell 4@150]` yields
realized profit 200, running average cost 100, 6 shares owned, and a stored
remaining cost basis (`total_shares * running_avg_cost`) of 600. -/
theorem sell_step_semantics :
    (∀ (st : ReplayState) (t : Tx), pyLower t.action = "sold" →
      t.shares ≤ st.shares_owned →
      (replayStep st t).total_realized_profit
          = st.total_realized_profit
              + (t.price * t.shares - st.running_avg_cost * t.shares) ∧
      (replayStep st t).shares_owned = st.shares_owned - t.shares ∧
      (replayStep st t).running_avg_cost = st.running_avg_cost) ∧
    ((replayList initReplay [buyTx, sellTx]).total_realized_profit = 200 ∧
     (replayList initReplay [buyTx, sellTx]).running_avg_cost = 100 ∧
     (replayList initReplay [buyTx, sellTx]).shares_owned = 6 ∧
     (replayList initReplay [buyTx, sellTx]).total_shares
         * (replayList initReplay [buyTx, sellTx]).running_avg_cost = 600) := by
  constructor
  · intro st t hsold hle
    have hcond : ¬ (pyLower t.action = "bought") := by
      rw [hsold]; exact sold_ne_bought
    have hge : st.shares_owned ≥ t.shares := hle
    simp only [replayStep, if_neg hcond, if_pos hsold, if_pos hge]
    refine ⟨by ring_nf, by trivial, by trivial⟩
  · norm_num [replayList, replayStep, initReplay, buyTx, sellTx, pyLower_Bought,
      pyLower_Sold, sold_ne_bought]

/-- Witness for C1: the general part applied to the concrete sale of 4 shares
at 150 against 6 owned shares with running average cost 100. -/
theorem sell_step_semantics_witness :
    (replayStep ⟨6, 600, 0, 100, 6, 0⟩ sellTx).total_realized_profit
        = 0 + (150 * 4 - 100 * 4) ∧
    (replayStep ⟨6, 600, 0, 100, 6, 0⟩ sellTx).shares_owned = 6 - 4 ∧
    (replayStep ⟨6, 600, 0, 100, 6, 0⟩ sellTx).running_avg_cost = 100 :=
  sell_step_semantics.1 ⟨6, 600, 0, 100, 6, 0⟩ sellTx (by decide) (by norm_num [sellTx])

/-! ### Claim C5 -/

/-- Claim C5: a Sell of more shares than owned leaves the replay state
(shares, running average cost, realized profit) exactly as if the
transaction were absent, records one warning, and replay continues with the
remaining transactions from that state. -/
theorem oversell_skipped :
    ∀ (st : ReplayState) (t : Tx) (rest : List Tx),
      pyLower t.action = "sold" → st.shares_owned < t.shares →
      replayStep st t = { st with warnings := st.warnings + 1 } ∧
      replayList st (t :: rest)
        = replayList { st with warnings := st.warnings + 1 } rest := by
  intro st t rest hsold hlt
  have hstep : replayStep st t = { st with warnings := st.warnings + 1 } := by
    simp only [replayStep, hsold, sold_ne_bought, if_false, ge_iff_le,
      not_le.mpr hlt, if_true]
  exact ⟨hstep, by rw [replayList, hstep]⟩

/-- Witness for C5: overselling 5 shares from the empty state is skipped with
a warning, and replay continues into a following buy. -/
theorem oversell_skipped_witness :
    replayStep initReplay ⟨"Sold", 1, 5, 10⟩
        = { initReplay with warnings := initReplay.warnings + 1 } ∧
    replayList initReplay [⟨"Sold", 1, 5, 10⟩, buyTx]
        = replayList { initReplay with warnings := initReplay.warnings + 1 } [buyTx] :=
  oversell_skipped initReplay ⟨"Sold", 1, 5, 10⟩ [buyTx] (by decide)
    (by norm_num [initReplay])

/-! ### Claim C9 -/

/-- Claim C9: `remove_stock` on a symbol that is not held returns `False` and
leaves the whole portfolio (stocks, transactions, realized profits)
unchanged; on a held symbol it returns `True`. -/
theorem remove_stock_unknown_symbol :
    ∀ (p : Portfolio) (s : String) (q : Option Rat),
      (alookup s p.stocks = none → remove_stock p s q = (p, false)) ∧
      ((alookup s p.stocks).isSome → (remove_stock p s q).2 = true) := by
  intro p s q
  constructor
  · intro hnone
    simp [remove_stock, hnone]
  · intro hsome
    obtain ⟨h, hh⟩ := Option.isSome_iff_exists.mp hsome
    cases q with
    | none => simp [remove_stock, hh]
    | some v =>
      simp only [remove_stock, hh]
      split
      · rfl
      · split <;> rfl

/-- Witness for C9: removing an unknown symbol from the demo portfolio fails
without touching it; removing the held symbol reports success. -/
theorem remove_stock_unknown_symbol_witness :
    remove_stock demoPortfolio "B" none = (demoPortfolio, false) ∧
    (remove_stock demoPortfolio "A" none).2 = true := by
  constructor
  · exact (remove_stock_unknown_symbol demoPortfolio "B" none).1
      (by norm_num [demoPortfolio, demoLedger, toRawLedger, import_from_json, importGo,
        replayRaw, replayStep, initReplay, buyTx, sellTx, pyLower_Bought, pyLower_Sold,
        sold_ne_bought, strA_ne_strB, Portfolio.empty, ainsert, alookup])
  · exact (remove_stock_unknown_symbol demoPortfolio "A" none).2
      (by norm_num [demoPortfolio, demoLedger, toRawLedger, import_from_json, importGo,
        replayRaw, replayStep, initReplay, buyTx, sellTx, pyLower_Bought, pyLower_Sold,
        sold_ne_bought, Portfolio.empty, ainsert, alookup])

/-! ### Claim C10 -/

/-- Claim C10: `add_stock` mutates only the stocks entry of the given symbol:
the transaction ledger, the realized-profits map, and every other symbol's
stocks entry are unchanged. -/
theorem add_stock_frame :
    ∀ (p : Portfolio) (s : String) (q : Rat) (pp : Option Rat),
      (add_stock p s q pp).transactions = p.transactions ∧
      (add_stock p s q pp).realized_profits = p.realized_profits ∧
      (∀ s', s' ≠ s →
        alookup s' (add_stock p s q pp).stocks = alookup s' p.stocks) := by
  intro p s q pp
  have hstocks : ∃ v, (add_stock p s q pp).stocks = ainsert s v p.stocks ∧
      (add_stock p s q pp).transactions = p.transactions ∧
      (add_stock p s q pp).realized_profits = p.realized_profits := by
    unfold add_stock
    repeat' split
    all_goals exact ⟨_, rfl, rfl, rfl⟩
  obtain ⟨v, hv, htx, hrp⟩ := hstocks
  refine ⟨htx, hrp, fun s' hne => ?_⟩
  rw [hv, alookup_ainsert_ne s s' hne]

/-- Witness for C10: adding shares of "A" to the demo portfolio does not
change the ledger, the realized profits, or the entry of another symbol. -/
theorem add_stock_frame_witness :
    (add_stock demoPortfolio "A" 5 (some 120)).transactions
        = demoPortfolio.transactions ∧
    alookup "B" (add_stock demoPortfolio "A" 5 (some 120)).stocks
        = alookup "B" demoPortfolio.stocks :=
  ⟨(add_stock_frame demoPortfolio "A" 5 (some 120)).1,
   (add_stock_frame demoPortfolio "A" 5 (some 120)).2.2 "B" (by decide)⟩

/-! ### Claim C2 -/

theorem replayRaw_of_bad :
    ∀ (txs : List RawTx), RawTx.bad ∈ txs → ∀ st, replayRaw st txs = none := by
  intro txs hmem
  induction txs with
  | nil => cases hmem
  | cons r rest ih =>
    intro st
    cases r with
    | bad => rfl
    | good t =>
      have : RawTx.bad ∈ rest := by
        rcases List.mem_cons.mp hmem with h | h
        · cases h
        · exact h
      exact ih this (replayStep st t)

theorem importGo_bad_false :
    ∀ (entries : List (String × List RawTx)) (p : Portfolio),
      (∃ pr ∈ entries, RawTx.bad ∈ pr.2) → (importGo p entries).2 = false := by
  intro entries
  induction entries with
  | nil => rintro p ⟨pr, hpr, _⟩; cases hpr
  | cons e rest ih =>
    rintro p ⟨pr, hpr, hbad⟩
    obtain ⟨symbol, txs⟩ := e
    rcases List.mem_cons.mp hpr with h | h
    · subst h
      simp only [importGo, replayRaw_of_bad txs hbad initReplay]
    · simp only [importGo]
      cases hrr : replayRaw initReplay txs with
      | none => rfl
      | some st => exact ih _ ⟨pr, h, hbad⟩

/-- Counterexample to C2 as stated: importing a ledger with a malformed entry
after a valid import does return `False`, but it does NOT leave the prior
state untouched — the holdings dict was cleared (and partially repopulated)
before the entry raised, so the prior holdings are lost. -/
theorem import_not_atomic_counterexample :
    (import_from_json demoPortfolio (ImportData.parsed [("B", [RawTx.bad])])).2
        = false ∧
    (import_from_json demoPortfolio
        (ImportData.parsed [("B", [RawTx.bad])])).1.stocks
      ≠ demoPortfolio.stocks := by
  constructor
  · rfl
  · intro hcontra
    have : ([] : List (String × Holding)) = demoPortfolio.stocks := hcontra
    have h6 : alookup "A" demoPortfolio.stocks
        = some ⟨6, some 100, some 600⟩ := by
      norm_num [demoPortfolio, demoLedger, toRawLedger, import_from_json, importGo,
        replayRaw, replayStep, initReplay, buyTx, sellTx, pyLower_Bought, pyLower_Sold,
        sold_ne_bought, Portfolio.empty, ainsert, alookup]
    rw [← this] at h6
    exact Option.noConfusion h6

/-- Claim C2 amended: the import is atomic for a malformed file — `json.load`
raises before the portfolio is cleared, so the call returns `False` with
stocks, transactions and realized profits exactly as before — and any import
whose data contains a malformed entry also returns `False` (but, per the
counterexample, with the prior state already cleared). -/
theorem import_malformed_atomic :
    (∀ p : Portfolio, import_from_json p ImportData.malformed = (p, false)) ∧
    (∀ (p : Portfolio) (entries : List (String × List RawTx)),
      (∃ pr ∈ entries, RawTx.bad ∈ pr.2) →
      (import_from_json p (ImportData.parsed entries)).2 = false) := by
  constructor
  · intro p; rfl
  · intro p entries hbad
    exact importGo_bad_false entries Portfolio.empty hbad

/-- Witness for C2 amended: a malformed file leaves the demo portfolio
intact, and a parsed ledger containing a bad entry reports failure. -/
theorem import_malformed_atomic_witness :
    import_from_json demoPortfolio ImportData.malformed = (demoPortfolio, false) ∧
    (import_from_json demoPortfolio
        (ImportData.parsed [("B", [RawTx.bad])])).2 = false :=
  ⟨import_malformed_atomic.1 demoPortfolio,
   import_malformed_atomic.2 demoPortfolio [("B", [RawTx.bad])]
     ⟨("B", [RawTx.bad]), by simp, by simp⟩⟩

/-! ### Claim C4 -/

theorem importGo_stocks_invariant :
    ∀ (entries : List (String × List RawTx)) (p : Portfolio),
      (∀ s h, alookup s p.stocks = some h →
        ∃ c, h.purchase_price = some c ∧ h.remaining_cost = some (h.shares * c)) →
      ∀ s h, alookup s (importGo p entries).1.stocks = some h →
        ∃ c, h.purchase_price = some c ∧ h.remaining_cost = some (h.shares * c) := by
  intro entries
  induction entries with
  | nil => intro p hp; exact hp
  | cons e rest ih =>
    intro p hp
    obtain ⟨symbol, txs⟩ := e
    simp only [importGo]
    cases replayRaw initReplay txs with
    | none => exact hp
    | some st =>
      apply ih
      intro s h hlook
      by_cases hpos : st.total_shares > 0
      · simp only [if_pos hpos] at hlook
        by_cases hs : s = symbol
        · subst hs
          rw [alookup_ainsert_self] at hlook
          cases hlook
          exact ⟨st.running_avg_cost, rfl, rfl⟩
        · rw [alookup_ainsert_ne symbol s hs] at hlook
          split at hlook <;> exact hp s h hlook
      · simp only [if_neg hpos] at hlook
        split at hlook <;> exact hp s h hlook

/-- Counterexample to C4 as stated: after importing a single Buy of 10@100
(`remaining_cost = 1000`), removing 4 shares via `remove_stock` decrements
the share count to 6 but leaves `remaining_cost` at 1000, violating
`remaining_cost == shares * average_cost` (6 * 100 = 600 ≠ 1000). -/
theorem remaining_cost_invariant_counterexample :
    alookup "A" ((remove_stock oneBuyPortfolio "A" (some 4)).1.stocks)
        = some ⟨6, some 100, some 1000⟩ ∧
    ¬ ((1000 : Rat) = 6 * 100) := by
  constructor
  · norm_num [oneBuyPortfolio, toRawLedger, import_from_json, importGo, replayRaw,
      replayStep, initReplay, buyTx, pyLower_Bought, Portfolio.empty, ainsert, alookup,
      remove_stock]
  · norm_num

/-- Claim C4 amended: every holding stored by `import_from_json` satisfies
`remaining_cost = shares * purchase_price` at creation, and `add_stock`
always stores a holding without a `remaining_cost` key (readers then default
it to `shares * purchase_price`, which satisfies the invariant trivially);
but `remove_stock` with partial shares does NOT preserve the invariant: it
decrements `shares` while leaving `purchase_price` and the stale
`remaining_cost` unchanged. -/
theorem remaining_cost_invariant_amended :
    (∀ (p : Portfolio) (entries : List (String × List RawTx)) (s : String)
        (h : Holding),
      alookup s ((import_from_json p (ImportData.parsed entries)).1.stocks) = some h →
      ∃ c, h.purchase_price = some c ∧ h.remaining_cost = some (h.shares * c)) ∧
    (∀ (p : Portfolio) (s : String) (q : Rat) (pp : Option Rat),
      ∃ h', alookup s ((add_stock p s q pp).stocks) = some h' ∧
        h'.remaining_cost = none) ∧
    (∀ (p : Portfolio) (s : String) (q : Rat) (h : Holding),
      alookup s p.stocks = some h → q < h.shares →
      alookup s ((remove_stock p s (some q)).1.stocks)
        = some ⟨h.shares - q, h.purchase_price, h.remaining_cost⟩) := by
  refine ⟨?_, ?_, ?_⟩
  · intro p entries s h hlook
    exact importGo_stocks_invariant entries Portfolio.empty
      (by intro s' h' hl; cases hl) s h hlook
  · intro p s q pp
    unfold add_stock
    repeat' split
    all_goals exact ⟨_, alookup_ainsert_self s _ p.stocks, rfl⟩
  · intro p s q h hlook hlt
    have hnotge : ¬ (q ≥ h.shares) := not_le.mpr hlt
    have hnotle : ¬ (h.shares - q ≤ 0) := by
      simp only [not_le, sub_pos]
      exact hlt
    simp only [remove_stock, hlook, if_neg hnotge, if_neg hnotle]
    exact alookup_ainsert_self s _ p.stocks

/-- Witness for C4 amended: the imported demo holding satisfies the
invariant; adding a fresh symbol stores no `remaining_cost`; removing
4 of the 10 imported shares keeps the stale `remaining_cost` 1000. -/
theorem remaining_cost_invariant_amended_witness :
    (∃ c, (⟨6, some 100, some 600⟩ : Holding).purchase_price = some c ∧
      (⟨6, some 100, some 600⟩ : Holding).remaining_cost
        = some ((⟨6, some 100, some 600⟩ : Holding).shares * c)) ∧
    (∃ h', alookup "A" ((add_stock Portfolio.empty "A" 5 (some 120)).stocks)
        = some h' ∧ h'.remaining_cost = none) ∧
    alookup "A" ((remove_stock oneBuyPortfolio "A" (some 4)).1.stocks)
        = some ⟨(10 : Rat) - 4, some 100, some 1000⟩ := by
  refine ⟨?_, ?_, ?_⟩
  · exact remaining_cost_invariant_amended.1 demoPortfolio
      (toRawLedger demoLedger) "A"
      ⟨6, some 100, some 600⟩
      (by norm_num [demoLedger, toRawLedger, import_from_json, importGo, replayRaw,
        replayStep, initReplay, buyTx, sellTx, pyLower_Bought, pyLower_Sold,
        sold_ne_bought, Portfolio.empty, ainsert, alookup])
  · exact remaining_cost_invariant_amended.2.1 Portfolio.empty "A" 5 (some 120)
  · exact remaining_cost_invariant_amended.2.2 oneBuyPortfolio "A" 4
      ⟨10, some 100, some 1000⟩
      (by norm_num [oneBuyPortfolio, toRawLedger, import_from_json, importGo, replayRaw,
        replayStep, initReplay, buyTx, pyLower_Bought, Portfolio.empty, ainsert, alookup])
      (by norm_num)

/-! ### Claim C3 -/

theorem replayList_buys_sums :
    ∀ (txs : List Tx) (st : ReplayState),
      (∀ t ∈ txs, pyLower t.action = "bought") →
      (replayList st txs).shares_owned
          = st.shares_owned + (txs.map Tx.shares).sum ∧
      (replayList st txs).total_shares
          = st.total_shares + (txs.map Tx.shares).sum ∧
      (replayList st txs).total_cost
          = st.total_cost + (txs.map (fun t => t.shares * t.price)).sum := by
  intro txs
  induction txs with
  | nil => intro st _; simp [replayList]
  | cons t rest ih =>
    intro st hall
    have hb : pyLower t.action = "bought" := hall t (List.mem_cons_self t rest)
    have hrest : ∀ x ∈ rest, pyLower x.action = "bought" :=
      fun x hx => hall x (List.mem_cons_of_mem t hx)
    have hstep : (replayStep st t).shares_owned = st.shares_owned + t.shares ∧
        (replayStep st t).total_shares = st.total_shares + t.shares ∧
        (replayStep st t).total_cost = st.total_cost + t.shares * t.price := by
      simp only [replayStep, if_pos hb]
      split <;> exact ⟨rfl, rfl, rfl⟩
    obtain ⟨h1, h2, h3⟩ := hstep
    obtain ⟨g1, g2, g3⟩ := ih (replayStep st t) hrest
    simp only [replayList, List.map_cons, List.sum_cons]
    refine ⟨?_, ?_, ?_⟩
    · rw [g1, h1]; ring
    · rw [g2, h2]; ring
    · rw [g3, h3]; ring

theorem replayList_buys_product :
    ∀ (txs : List Tx) (st : ReplayState),
      (∀ t ∈ txs, pyLower t.action = "bought" ∧ 0 < t.shares) →
      0 ≤ st.shares_owned →
      st.shares_owned * st.running_avg_cost = st.total_cost →
      0 ≤ (replayList st txs).shares_owned ∧
      (replayList st txs).shares_owned * (replayList st txs).running_avg_cost
          = (replayList st txs).total_cost := by
  intro txs
  induction txs with
  | nil => intro st _ h0 hprod; exact ⟨h0, hprod⟩
  | cons t rest ih =>
    intro st hall h0 hprod
    obtain ⟨hb, hq⟩ := hall t (List.mem_cons_self t rest)
    have hrest : ∀ x ∈ rest, pyLower x.action = "bought" ∧ 0 < x.shares :=
      fun x hx => hall x (List.mem_cons_of_mem t hx)
    have hstep : 0 ≤ (replayStep st t).shares_owned ∧
        (replayStep st t).shares_owned * (replayStep st t).running_avg_cost
          = (replayStep st t).total_cost := by
      simp only [replayStep, if_pos hb]
      by_cases hpos : st.shares_owned > 0
      · simp only [if_pos hpos]
        constructor
        · positivity
        · have hne : st.shares_owned + t.shares ≠ 0 := by positivity
          field_simp
          rw [hprod]
      · simp only [if_neg hpos]
        have hz : st.shares_owned = 0 := le_antisymm (not_lt.mp hpos) h0
        constructor
        · rw [hz]; positivity
        · have hc : st.total_cost = 0 := by rw [← hprod, hz, zero_mul]
          rw [hz, hc]; ring
    exact ih (replayStep st t) hrest hstep.1 hstep.2

/-- Claim C3: replaying a non-empty Buy-only transaction list produces a
running average cost equal to the shares-weighted average of all buy prices,
with `total_shares = shares_owned`, so the stored remaining cost basis
`total_shares * running_avg_cost` equals `shares_owned * average_cost`
exactly. -/
theorem buy_only_weighted_average :
    ∀ (txs : List Tx), txs ≠ [] →
      (∀ t ∈ txs, pyLower t.action = "bought" ∧ 0 < t.shares) →
      (replayList initReplay txs).shares_owned = (txs.map Tx.shares).sum ∧
      (replayList initReplay txs).total_shares
          = (replayList initReplay txs).shares_owned ∧
      (replayList initReplay txs).running_avg_cost
          = (txs.map (fun t => t.shares * t.price)).sum / (txs.map Tx.shares).sum ∧
      (replayList initReplay txs).total_shares
            * (replayList initReplay txs).running_avg_cost
          = (replayList initReplay txs).shares_owned
            * (replayList initReplay txs).running_avg_cost := by
  intro txs hne hall
  obtain ⟨h1, h2, h3⟩ := replayList_buys_sums txs initReplay
    (fun t ht => (hall t ht).1)
  have hz : initReplay.shares_owned = 0 := rfl
  have hzt : initReplay.total_shares = 0 := rfl
  have hzc : initReplay.total_cost = 0 := rfl
  rw [hz, zero_add] at h1
  rw [hzt, zero_add] at h2
  rw [hzc, zero_add] at h3
  obtain ⟨hpos0, hprod⟩ := replayList_buys_product txs initReplay hall
    (le_refl 0) (by norm_num [initReplay])
  have hsum_pos : 0 < (txs.map Tx.shares).sum := by
    apply List.sum_pos
    · intro x hx
      obtain ⟨t, ht, rfl⟩ := List.mem_map.mp hx
      exact (hall t ht).2
    · simp [hne]
  refine ⟨h1, by rw [h1, h2], ?_, by rw [h1, h2]⟩
  have hS : (replayList initReplay txs).shares_owned ≠ 0 := by
    rw [h1]; exact ne_of_gt hsum_pos
  rw [eq_div_iff (by rw [← h1]; exact hS)]
  rw [← h3, ← h1]
  rw [mul_comm]
  exact hprod

/-- Witness for C3: two buys, 10@100 and 30@110, give average cost
4300/40 = 107.5 and equal share counters. -/
theorem buy_only_weighted_average_witness :
    (replayList initReplay [buyTx, buyTx2]).shares_owned
        = ([buyTx, buyTx2].map Tx.shares).sum ∧
    (replayList initReplay [buyTx, buyTx2]).total_shares
        = (replayList initReplay [buyTx, buyTx2]).shares_owned ∧
    (replayList initReplay [buyTx, buyTx2]).running_avg_cost
        = ([buyTx, buyTx2].map (fun t => t.shares * t.price)).sum
            / ([buyTx, buyTx2].map Tx.shares).sum ∧
    (replayList initReplay [buyTx, buyTx2]).total_shares
          * (replayList initReplay [buyTx, buyTx2]).running_avg_cost
        = (replayList initReplay [buyTx, buyTx2]).shares_owned
          * (replayList initReplay [buyTx, buyTx2]).running_avg_cost :=
  buy_only_weighted_average [buyTx, buyTx2] (by simp)
    (by
      intro t ht
      rcases List.mem_cons.mp ht with h | h
      · subst h; exact ⟨by decide, by norm_num [buyTx]⟩
      · rcases List.mem_cons.mp h with h' | h'
        · subst h'; exact ⟨by decide, by norm_num [buyTx2]⟩
        · cases h')

/-! ### Claim C6 -/

theorem summary_parts_sum_one (tr tu : Rat) (h : tr + tu ≠ 0) :
    (if tr + tu ≠ 0 then some (tr / (tr + tu)) else none).getD 0
      + (if tr + tu ≠ 0 then some (tu / (tr + tu)) else none).getD 0 = 1 := by
  rw [if_pos h, if_pos h]
  simp only [Option.getD_some]
  rw [div_add_div_same, div_self h]

theorem summary_parts_zero (tr tu : Rat) (h : tr + tu = 0) :
    (if tr + tu ≠ 0 then some (tr / (tr + tu)) else none).getD 0 = 0 ∧
    (if tr + tu ≠ 0 then some (tu / (tr + tu)) else none).getD 0 = 0 := by
  rw [if_neg (not_not_intro h), if_neg (not_not_intro h)]
  exact ⟨rfl, rfl⟩

/-- Claim C6: whenever `calculate_profit_breakdown` returns a breakdown, the
summary satisfies `total_profit = total_realized + total_unrealized`; when
`total_profit` is nonzero the two profit fractions (each the respective
profit divided by `total_profit`, read with the consumers' `.get(..., 0)`
default) sum to exactly 1; when `total_profit` is zero both read as 0. -/
theorem breakdown_summary_consistent :
    ∀ (priceOf : String → Option Rat) (p : Portfolio) (b : Breakdown),
      calculate_profit_breakdown priceOf p = some b →
      b.summary.total_profit
          = b.summary.total_realized + b.summary.total_unrealized ∧
      (b.summary.total_profit ≠ 0 →
        b.summary.realized_part.getD 0 + b.summary.unrealized_part.getD 0 = 1) ∧
      (b.summary.total_profit = 0 →
        b.summary.realized_part.getD 0 = 0 ∧
        b.summary.unrealized_part.getD 0 = 0) := by
  intro priceOf p b h
  simp only [calculate_profit_breakdown] at h
  split at h
  · exact Option.noConfusion h
  · split at h
    · exact Option.noConfusion h
    · split at h
      · exact Option.noConfusion h
      · rw [Option.some.injEq] at h
        subst h
        exact ⟨rfl, fun htp => summary_parts_sum_one _ _ htp,
               fun htp => summary_parts_zero _ _ htp⟩

/-- Witness for C6: the breakdown of the fully-sold-out portfolio has
`total_profit = 200 = 200 + 0` and fractions summing to 1. -/
theorem breakdown_summary_consistent_witness :
    c6Breakdown.summary.total_profit
        = c6Breakdown.summary.total_realized
            + c6Breakdown.summary.total_unrealized ∧
    c6Breakdown.summary.realized_part.getD 0
        + c6Breakdown.summary.unrealized_part.getD 0 = 1 := by
  have happ := breakdown_summary_consistent noPrices soldOutP c6Breakdown
    (by norm_num [calculate_profit_breakdown, soldOutP, noPrices,
      get_performance_metrics, metricsList, symbolMetrics, get_portfolio_data,
      alookup, stockBreakdownOf, collectSome, goodTxs, buyTx, pyLower_Bought,
      sold_ne_bought, bought_ne_sold, sortProfitDesc, insProfitDesc, c6Breakdown])
  exact ⟨happ.1, happ.2.1 (by norm_num [c6Breakdown])⟩

/-! ### Claim C7 -/

theorem demo_stocks_A :
    alookup "A" demoPortfolio.stocks = some ⟨6, some 100, some 600⟩ := by
  norm_num [demoPortfolio, demoLedger, toRawLedger, import_from_json, importGo,
    replayRaw, replayStep, initReplay, buyTx, sellTx, pyLower_Bought, pyLower_Sold,
    sold_ne_bought, Portfolio.empty, ainsert, alookup]

/-- Claim C7: for a held symbol with a present average cost and an available
price, the snapshot (`get_portfolio_data` loop body) computes
`gain_loss_percent = (current_price / average_cost - 1) * 100`, while the
performance metrics (`get_performance_metrics` loop body) compute
`gain_loss_pct = (current_value - remaining_cost) / remaining_cost * 100`
when the remaining cost basis is positive and `0` otherwise. -/
theorem gain_loss_conventions :
    (∀ (priceOf : String → Option Rat) (s : String) (h : Holding)
        (cp c : Rat), priceOf s = some cp → h.purchase_price = some c →
      snapshotEntry priceOf s h
        = some ⟨s, h.shares, cp, cp * h.shares, some c,
                h.remaining_cost.getD (c * h.shares),
                some (cp * h.shares - h.remaining_cost.getD (c * h.shares)),
                some ((cp / c - 1) * 100)⟩) ∧
    (∀ (priceOf : String → Option Rat) (p : Portfolio) (s : String)
        (rawTxs : List RawTx) (txs : List Tx) (h : Holding) (cp c : Rat),
      alookup s p.stocks = some h → priceOf s = some cp →
      goodTxs rawTxs = some txs → h.purchase_price = some c →
      symbolMetrics priceOf p s rawTxs
        = .ok (some
            ⟨s, h.shares, cp, h.shares * cp,
             txs.foldl (fun acc t =>
               if pyLower t.action = "bought" then acc + t.shares * t.price
               else acc) 0,
             h.shares * cp - h.remaining_cost.getD (h.shares * c),
             (if h.remaining_cost.getD (h.shares * c) > 0 then
                (h.shares * cp - h.remaining_cost.getD (h.shares * c))
                  / h.remaining_cost.getD (h.shares * c) * 100
              else 0),
             (alookup s p.realized_profits).getD 0⟩)) := by
  constructor
  · intro priceOf s h cp c hprice hpp
    simp only [snapshotEntry, hprice, hpp]
  · intro priceOf p s rawTxs txs h cp c hlook hprice hgood hpp
    simp only [symbolMetrics, hlook, hprice, hgood, hpp]

/-- Witness for C7: on the imported demo holding (6 shares, average cost 100,
remaining cost 600) at price 150, the snapshot computes its percentage as
`(150/100 - 1) * 100 = 50` while the metrics compute theirs as
`(900 - 600)/600 * 100 = 50` — the same number here because an imported
holding has `remaining_cost = shares * average_cost`, but reached through the
two distinct formulas. -/
theorem gain_loss_conventions_witness :
    snapshotEntry demoPrices "A" ⟨6, some 100, some 600⟩
        = some ⟨"A", 6, 150, 900, some 100, 600, some 300, some 50⟩ ∧
    symbolMetrics demoPrices demoPortfolio "A"
        [RawTx.good buyTx, RawTx.good sellTx]
      = .ok (some ⟨"A", 6, 150, 900, 1000, 300, 50, 200⟩) := by
  constructor
  · have h := gain_loss_conventions.1 demoPrices "A" ⟨6, some 100, some 600⟩
      150 100 rfl rfl
    rw [h]
    norm_num
  · have h := gain_loss_conventions.2 demoPrices demoPortfolio "A"
      [RawTx.good buyTx, RawTx.good sellTx] [buyTx, sellTx]
      ⟨6, some 100, some 600⟩ 150 100 demo_stocks_A rfl (by rfl) rfl
    rw [h]
    norm_num [buyTx, sellTx, pyLower_Bought, pyLower_Sold, sold_ne_bought,
      demoPortfolio, demoLedger, toRawLedger, import_from_json, importGo, replayRaw,
      replayStep, initReplay, Portfolio.empty, ainsert, alookup]

/-! ### Claim C8: stable-sort machinery

Python's `list.sort` is stable both ascending and with `reverse=True`.
The two insertion sorts above (`sortRowsAsc`, `sortRowsDesc`) are stable in
the same sense; the lemmas below establish
(i)  sortedness,
(ii) that filtering by any predicate commutes with sorting,
(iii) that the per-date subsequences are preserved (stability), and
(iv) that a stable ascending sort of a stable descending sort of an already
     ascending list gives the list back.
-/

theorem insRowAsc_all (x : CsvRow) (M : List CsvRow)
    (hall : ∀ e ∈ M, ¬ (e.date < x.date)) : insRowAsc x M = x :: M := by
  cases M with
  | nil => rfl
  | cons h t => simp [insRowAsc, hall h (List.mem_cons_self h t)]

theorem mem_insRowAsc {e x : CsvRow} {M : List CsvRow} :
    e ∈ insRowAsc x M ↔ e = x ∨ e ∈ M := by
  induction M with
  | nil => simp [insRowAsc]
  | cons h t ih =>
    by_cases hc : h.date < x.date
    · rw [insRowAsc, if_pos hc]
      simp only [List.mem_cons, ih]
      tauto
    · rw [insRowAsc, if_neg hc]
      simp [List.mem_cons]

theorem pairwise_insRowAsc (x : CsvRow) (M : List CsvRow)
    (hM : M.Pairwise (fun a b => a.date ≤ b.date)) :
    (insRowAsc x M).Pairwise (fun a b => a.date ≤ b.date) := by
  induction M with
  | nil => simp [insRowAsc]
  | cons h t ih =>
    rw [List.pairwise_cons] at hM
    obtain ⟨hh, ht⟩ := hM
    by_cases hc : h.date < x.date
    · rw [insRowAsc, if_pos hc, List.pairwise_cons]
      refine ⟨?_, ih ht⟩
      intro e he
      rcases mem_insRowAsc.mp he with rfl | hmem
      · exact le_of_lt hc
      · exact hh e hmem
    · rw [insRowAsc, if_neg hc, List.pairwise_cons]
      refine ⟨?_, List.pairwise_cons.mpr ⟨hh, ht⟩⟩
      intro e he
      rcases List.mem_cons.mp he with rfl | hmem
      · exact not_lt.mp hc
      · exact le_trans (not_lt.mp hc) (hh e hmem)

theorem pairwise_sortRowsAsc (l : List CsvRow) :
    (sortRowsAsc l).Pairwise (fun a b => a.date ≤ b.date) := by
  induction l with
  | nil => simp [sortRowsAsc]
  | cons x t ih => exact pairwise_insRowAsc x (sortRowsAsc t) ih

theorem filter_insRowAsc (p : CsvRow → Bool) (x : CsvRow) :
    ∀ (M : List CsvRow), M.Pairwise (fun a b => a.date ≤ b.date) →
      (insRowAsc x M).filter p
        = if p x then insRowAsc x (M.filter p) else M.filter p := by
  intro M
  induction M with
  | nil =>
    intro _
    cases hp : p x <;> simp [insRowAsc, hp]
  | cons h t ih =>
    intro hpw
    rw [List.pairwise_cons] at hpw
    obtain ⟨hh, ht⟩ := hpw
    by_cases hc : h.date < x.date
    · cases hp : p h <;> cases hpx : p x <;>
        simp [insRowAsc, hc, hp, hpx, ih ht, List.filter_cons]
    · have hfil : insRowAsc x ((h :: t).filter p) = x :: (h :: t).filter p := by
        apply insRowAsc_all
        intro e he
        rcases List.mem_cons.mp (List.mem_of_mem_filter he) with rfl | hm
        · exact hc
        · exact not_lt.mpr (le_trans (not_lt.mp hc) (hh e hm))
      have hins : insRowAsc x (h :: t) = x :: h :: t := by
        simp [insRowAsc, hc]
      cases hpx : p x with
      | true =>
        rw [hins, List.filter_cons, hpx]
        simp [hfil]
      | false =>
        rw [hins, List.filter_cons, hpx]
        simp

theorem filter_sortRowsAsc (p : CsvRow → Bool) :
    ∀ (l : List CsvRow), (sortRowsAsc l).filter p = sortRowsAsc (l.filter p) := by
  intro l
  induction l with
  | nil => rfl
  | cons x t ih =>
    have h1 := filter_insRowAsc p x (sortRowsAsc t) (pairwise_sortRowsAsc t)
    cases hp : p x <;>
      simp [sortRowsAsc, List.filter_cons, h1, hp, ih]

theorem insRowDesc_all (x : CsvRow) (M : List CsvRow)
    (hall : ∀ e ∈ M, ¬ (e.date > x.date)) : insRowDesc x M = x :: M := by
  cases M with
  | nil => rfl
  | cons h t => simp [insRowDesc, hall h (List.mem_cons_self h t)]

theorem mem_insRowDesc {e x : CsvRow} {M : List CsvRow} :
    e ∈ insRowDesc x M ↔ e = x ∨ e ∈ M := by
  induction M with
  | nil => simp [insRowDesc]
  | cons h t ih =>
    by_cases hc : h.date > x.date
    · rw [insRowDesc, if_pos hc]
      simp only [List.mem_cons, ih]
      tauto
    · rw [insRowDesc, if_neg hc]
      simp [List.mem_cons]

theorem pairwise_insRowDesc (x : CsvRow) (M : List CsvRow)
    (hM : M.Pairwise (fun a b => b.date ≤ a.date)) :
    (insRowDesc x M).Pairwise (fun a b => b.date ≤ a.date) := by
  induction M with
  | nil => simp [insRowDesc]
  | cons h t ih =>
    rw [List.pairwise_cons] at hM
    obtain ⟨hh, ht⟩ := hM
    by_cases hc : h.date > x.date
    · rw [insRowDesc, if_pos hc, List.pairwise_cons]
      refine ⟨?_, ih ht⟩
      intro e he
      rcases mem_insRowDesc.mp he with rfl | hmem
      · exact le_of_lt hc
      · exact hh e hmem
    · rw [insRowDesc, if_neg hc, List.pairwise_cons]
      refine ⟨?_, List.pairwise_cons.mpr ⟨hh, ht⟩⟩
      intro e he
      rcases List.mem_cons.mp he with rfl | hmem
      · exact not_lt.mp hc
      · exact le_trans (hh e hmem) (not_lt.mp hc)

theorem pairwise_sortRowsDesc (l : List CsvRow) :
    (sortRowsDesc l).Pairwise (fun a b => b.date ≤ a.date) := by
  induction l with
  | nil => simp [sortRowsDesc]
  | cons x t ih => exact pairwise_insRowDesc x (sortRowsDesc t) ih

theorem filter_insRowDesc (p : CsvRow → Bool) (x : CsvRow) :
    ∀ (M : List CsvRow), M.Pairwise (fun a b => b.date ≤ a.date) →
      (insRowDesc x M).filter p
        = if p x then insRowDesc x (M.filter p) else M.filter p := by
  intro M
  induction M with
  | nil =>
    intro _
    cases hp : p x <;> simp [insRowDesc, hp]
  | cons h t ih =>
    intro hpw
    rw [List.pairwise_cons] at hpw
    obtain ⟨hh, ht⟩ := hpw
    by_cases hc : h.date > x.date
    · cases hp : p h <;> cases hpx : p x <;>
        simp [insRowDesc, hc, hp, hpx, ih ht, List.filter_cons]
    · have hfil : insRowDesc x ((h :: t).filter p) = x :: (h :: t).filter p := by
        apply insRowDesc_all
        intro e he
        rcases List.mem_cons.mp (List.mem_of_mem_filter he) with rfl | hm
        · exact hc
        · exact not_lt.mpr (le_trans (hh e hm) (not_lt.mp hc))
      have hins : insRowDesc x (h :: t) = x :: h :: t := by
        simp [insRowDesc, hc]
      cases hpx : p x with
      | true =>
        rw [hins, List.filter_cons, hpx]
        simp [hfil]
      | false =>
        rw [hins, List.filter_cons, hpx]
        simp

theorem filter_sortRowsDesc (p : CsvRow → Bool) :
    ∀ (l : List CsvRow), (sortRowsDesc l).filter p = sortRowsDesc (l.filter p) := by
  intro l
  induction l with
  | nil => rfl
  | cons x t ih =>
    have h1 := filter_insRowDesc p x (sortRowsDesc t) (pairwise_sortRowsDesc t)
    cases hp : p x <;>
      simp [sortRowsDesc, List.filter_cons, h1, hp, ih]

/-- The per-date filter, used to state stability of the two sorts. -/
def dateIs (k : Int) : CsvRow → Bool := fun r => decide (r.date = k)

theorem dateFilter_insRowAsc (k : Int) (x : CsvRow) :
    ∀ (M : List CsvRow),
      (insRowAsc x M).filter (dateIs k)
        = if x.date = k then x :: M.filter (dateIs k) else M.filter (dateIs k) := by
  intro M
  induction M with
  | nil =>
    by_cases hxk : x.date = k <;> simp [insRowAsc, dateIs, hxk]
  | cons h t ih =>
    by_cases hc : h.date < x.date
    · rw [insRowAsc, if_pos hc, List.filter_cons]
      by_cases hhk : h.date = k
      · by_cases hxk : x.date = k
        · omega
        · simp [dateIs, hhk, hxk, ih]
      · simp [dateIs, hhk, ih]
    · have hins : insRowAsc x (h :: t) = x :: h :: t := by
        simp [insRowAsc, hc]
      rw [hins, List.filter_cons]
      by_cases hxk : x.date = k <;> simp [dateIs, hxk]

theorem dateFilter_sortRowsAsc (k : Int) :
    ∀ (l : List CsvRow),
      (sortRowsAsc l).filter (dateIs k) = l.filter (dateIs k) := by
  intro l
  induction l with
  | nil => rfl
  | cons x t ih =>
    rw [sortRowsAsc, dateFilter_insRowAsc, List.filter_cons]
    by_cases hxk : x.date = k <;> simp [dateIs, hxk, ih]

theorem dateFilter_insRowDesc (k : Int) (x : CsvRow) :
    ∀ (M : List CsvRow),
      (insRowDesc x M).filter (dateIs k)
        = if x.date = k then x :: M.filter (dateIs k) else M.filter (dateIs k) := by
  intro M
  induction M with
  | nil =>
    by_cases hxk : x.date = k <;> simp [insRowDesc, dateIs, hxk]
  | cons h t ih =>
    by_cases hc : h.date > x.date
    · rw [insRowDesc, if_pos hc, List.filter_cons]
      by_cases hhk : h.date = k
      · by_cases hxk : x.date = k
        · omega
        · simp [dateIs, hhk, hxk, ih]
      · simp [dateIs, hhk, ih]
    · have hins : insRowDesc x (h :: t) = x :: h :: t := by
        simp [insRowDesc, hc]
      rw [hins, List.filter_cons]
      by_cases hxk : x.date = k <;> simp [dateIs, hxk]

theorem dateFilter_sortRowsDesc (k : Int) :
    ∀ (l : List CsvRow),
      (sortRowsDesc l).filter (dateIs k) = l.filter (dateIs k) := by
  intro l
  induction l with
  | nil => rfl
  | cons x t ih =>
    rw [sortRowsDesc, dateFilter_insRowDesc, List.filter_cons]
    by_cases hxk : x.date = k <;> simp [dateIs, hxk, ih]

theorem sorted_stable_unique :
    ∀ (m m' : List CsvRow),
      m.Pairwise (fun a b => a.date ≤ b.date) →
      m'.Pairwise (fun a b => a.date ≤ b.date) →
      (∀ k : Int, m.filter (dateIs k) = m'.filter (dateIs k)) →
      m = m' := by
  intro m
  induction m with
  | nil =>
    intro m' _ _ hf
    cases m' with
    | nil => rfl
    | cons y t' =>
      have h1 := hf y.date
      rw [List.filter_cons] at h1
      simp [dateIs] at h1
  | cons a t ih =>
    intro m' hm hm' hf
    cases m' with
    | nil =>
      have h1 := hf a.date
      rw [List.filter_cons] at h1
      simp [dateIs] at h1
    | cons a' t' =>
      rw [List.pairwise_cons] at hm hm'
      obtain ⟨ha, htp⟩ := hm
      obtain ⟨ha', htp'⟩ := hm'
      by_cases hdd : a'.date = a.date
      · have h1 := hf a.date
        rw [List.filter_cons, List.filter_cons] at h1
        simp only [dateIs, decide_eq_true_eq] at h1
        rw [if_pos trivial, if_pos hdd] at h1
        rw [List.cons.injEq] at h1
        obtain ⟨haa, htails⟩ := h1
        subst haa
        have htt : t = t' := by
          apply ih t' htp htp'
          intro k
          by_cases hk : k = a.date
          · subst hk
            exact htails
          · have h2 := hf k
            rw [List.filter_cons, List.filter_cons] at h2
            simp only [dateIs, decide_eq_true_eq] at h2
            rw [if_neg (fun h => hk h.symm),
              if_neg (fun h => hk (hdd ▸ h).symm)] at h2
            exact h2
        rw [htt]
      · exfalso
        have h1 := hf a.date
        rw [List.filter_cons, List.filter_cons] at h1
        simp only [dateIs, decide_eq_true_eq] at h1
        rw [if_pos trivial, if_neg hdd] at h1
        have hmem : a ∈ t'.filter (dateIs a.date) := by
          rw [← h1]; exact List.mem_cons_self a _
        have hle1 : a'.date ≤ a.date := ha' a (List.mem_of_mem_filter hmem)
        have h2 := hf a'.date
        rw [List.filter_cons, List.filter_cons] at h2
        simp only [dateIs, decide_eq_true_eq] at h2
        rw [if_neg (fun h => hdd h.symm), if_pos trivial] at h2
        have hmem' : a' ∈ t.filter (dateIs a'.date) := by
          rw [h2]; exact List.mem_cons_self a' _
        have hle2 : a.date ≤ a'.date := ha a' (List.mem_of_mem_filter hmem')
        exact hdd (le_antisymm hle1 hle2)

/-- A stable ascending re-sort of a stable descending sort restores an
already-ascending list exactly (ties keep their original order through both
sorts). -/
theorem sortAsc_sortDesc_of_sorted (l : List CsvRow)
    (hl : l.Pairwise (fun a b => a.date ≤ b.date)) :
    sortRowsAsc (sortRowsDesc l) = l := by
  apply sorted_stable_unique _ _ (pairwise_sortRowsAsc _) hl
  intro k
  rw [dateFilter_sortRowsAsc, dateFilter_sortRowsDesc]

theorem flatRows_cons (realized : List (String × Rat)) (pr : String × List Tx)
    (rest : Ledger) :
    flatRows realized (pr :: rest)
      = pr.2.map (csvRowOf realized pr.2 pr.1) ++ flatRows realized rest := rfl

theorem filter_rows_self (realized : List (String × Rat)) (s : String)
    (symTxs : List Tx) :
    ∀ (txs : List Tx),
      (txs.map (csvRowOf realized symTxs s)).filter
          (fun r => decide (r.symbol = s))
        = txs.map (csvRowOf realized symTxs s) := by
  intro txs
  induction txs with
  | nil => rfl
  | cons t rest ih =>
    rw [List.map_cons, List.filter_cons]
    simp only [csvRowOf, decide_eq_true_eq]
    rw [if_pos trivial, ih]

theorem filter_rows_other (realized : List (String × Rat)) (s s' : String)
    (hne : ¬ (s' = s)) (symTxs : List Tx) :
    ∀ (txs : List Tx),
      (txs.map (csvRowOf realized symTxs s')).filter
          (fun r => decide (r.symbol = s)) = [] := by
  intro txs
  induction txs with
  | nil => rfl
  | cons t rest ih =>
    rw [List.map_cons, List.filter_cons]
    simp only [csvRowOf, decide_eq_true_eq]
    rw [if_neg hne, ih]

theorem filter_flatRows_not_mem (realized : List (String × Rat)) (s : String) :
    ∀ (ledger : Ledger), ¬ (s ∈ ledger.map Prod.fst) →
      (flatRows realized ledger).filter (fun r => decide (r.symbol = s)) = [] := by
  intro ledger
  induction ledger with
  | nil => intro _; rfl
  | cons pr rest ih =>
    intro hmem
    rw [flatRows_cons, List.filter_append]
    have h1 : ¬ (pr.1 = s) := by
      intro h
      exact hmem (by rw [List.map_cons, h]; exact List.mem_cons_self s _)
    have h2 : ¬ (s ∈ rest.map Prod.fst) := by
      intro h
      exact hmem (by rw [List.map_cons]; exact List.mem_cons_of_mem _ h)
    rw [filter_rows_other realized s pr.1 h1 pr.2 pr.2, ih h2]
    rfl

theorem filter_flatRows (realized : List (String × Rat)) (s : String) :
    ∀ (ledger : Ledger) (txs : List Tx),
      (ledger.map Prod.fst).Nodup → alookup s ledger = some txs →
      (flatRows realized ledger).filter (fun r => decide (r.symbol = s))
        = txs.map (csvRowOf realized txs s) := by
  intro ledger
  induction ledger with
  | nil => intro txs _ hlook; exact Option.noConfusion hlook
  | cons pr rest ih =>
    intro txs hnd hlook
    rw [List.map_cons, List.nodup_cons] at hnd
    obtain ⟨hnotin, hnd'⟩ := hnd
    rw [flatRows_cons, List.filter_append]
    by_cases hs : pr.1 = s
    · subst hs
      rw [alookup, if_pos rfl, Option.some.injEq] at hlook
      subst hlook
      rw [filter_rows_self, filter_flatRows_not_mem realized pr.1 rest hnotin,
        List.append_nil]
    · rw [alookup, if_neg hs] at hlook
      rw [filter_rows_other realized s pr.1 hs pr.2 pr.2, List.nil_append]
      exact ih txs hnd' hlook

theorem alookup_eq_of_mem (pr : String × List Tx) :
    ∀ (ledger : Ledger), pr ∈ ledger → (ledger.map Prod.fst).Nodup →
      alookup pr.1 ledger = some pr.2 := by
  intro ledger
  induction ledger with
  | nil => intro h _; cases h
  | cons e rest ih =>
    intro hmem hnd
    rw [List.map_cons, List.nodup_cons] at hnd
    obtain ⟨hnotin, hnd'⟩ := hnd
    rcases List.mem_cons.mp hmem with rfl | hmem'
    · rw [alookup, if_pos rfl]
    · have hne : ¬ (e.1 = pr.1) := by
        intro h
        apply hnotin
        rw [h]
        exact List.mem_map_of_mem Prod.fst hmem'
      rw [alookup, if_neg hne]
      exact ih hmem' hnd'

theorem rowToTx_csvRowOf (realized : List (String × Rat)) (symTxs : List Tx)
    (s : String) (t : Tx) : rowToTx (csvRowOf realized symTxs s t) = t := rfl

/-! ### Claim C8 -/

/-- Counterexample to C8 as stated: the export is sorted date-descending, and
replay is order-dependent.  Rebuilding the structured record from the export
rows in the export's own order (every Buy/Sell with exact shares, price and
date — only the order differs from the original ledger) and re-importing
yields 10 held shares and no realized profit for "A" instead of the original
6 shares and 200 profit: the Sell is replayed first and skipped as an
oversell. -/
theorem export_roundtrip_counterexample :
    (import_from_json Portfolio.empty (ImportData.parsed (toRawLedger
        (rebuildLedgerExportOrder demoLedger
          (export_transactions_csv demoPortfolio.realized_profits demoLedger))))).1.stocks
      ≠ demoPortfolio.stocks ∧
    (import_from_json Portfolio.empty (ImportData.parsed (toRawLedger
        (rebuildLedgerExportOrder demoLedger
          (export_transactions_csv demoPortfolio.realized_profits demoLedger))))).1.realized_profits
      ≠ demoPortfolio.realized_profits := by
  have hrebuild :
      rebuildLedgerExportOrder demoLedger
          (export_transactions_csv demoPortfolio.realized_profits demoLedger)
        = [("A", [sellTx, buyTx])] := by
    norm_num [demoPortfolio, demoLedger, toRawLedger, import_from_json, importGo,
      replayRaw, replayStep, initReplay, buyTx, sellTx, pyLower_Bought, pyLower_Sold,
      sold_ne_bought, bought_ne_sold, Portfolio.empty, ainsert, alookup,
      rebuildLedgerExportOrder, export_transactions_csv, flatRows, csvRowOf,
      sortRowsDesc, insRowDesc, List.filter, rowToTx]
  rw [hrebuild]
  constructor
  · intro hcontra
    have hL : (import_from_json Portfolio.empty (ImportData.parsed (toRawLedger
        [("A", [sellTx, buyTx])]))).1.stocks = [("A", ⟨10, some 100, some 1000⟩)] := by
      norm_num [toRawLedger, import_from_json, importGo, replayRaw, replayStep,
        initReplay, buyTx, sellTx, pyLower_Bought, pyLower_Sold, sold_ne_bought,
        bought_ne_sold, Portfolio.empty, ainsert]
    have hR : demoPortfolio.stocks = [("A", ⟨6, some 100, some 600⟩)] := by
      norm_num [demoPortfolio, demoLedger, toRawLedger, import_from_json, importGo,
        replayRaw, replayStep, initReplay, buyTx, sellTx, pyLower_Bought, pyLower_Sold,
        sold_ne_bought, Portfolio.empty, ainsert]
    rw [hL, hR] at hcontra
    simp only [List.cons.injEq, Prod.mk.injEq, Holding.mk.injEq] at hcontra
    have : (10 : Rat) = 6 := hcontra.1.2.1
    norm_num at this
  · intro hcontra
    have hL : (import_from_json Portfolio.empty (ImportData.parsed (toRawLedger
        [("A", [sellTx, buyTx])]))).1.realized_profits = [] := by
      norm_num [toRawLedger, import_from_json, importGo, replayRaw, replayStep,
        initReplay, buyTx, sellTx, pyLower_Bought, pyLower_Sold, sold_ne_bought,
        bought_ne_sold, Portfolio.empty, ainsert]
    have hR : demoPortfolio.realized_profits = [("A", 200)] := by
      norm_num [demoPortfolio, demoLedger, toRawLedger, import_from_json, importGo,
        replayRaw, replayStep, initReplay, buyTx, sellTx, pyLower_Bought, pyLower_Sold,
        sold_ne_bought, Portfolio.empty, ainsert]
    rw [hL, hR] at hcontra
    exact List.noConfusion hcontra

/-- Claim C8 amended: the export captures every Buy/Sell with exact shares,
price and date but permutes them into date-descending order, so the
round-trip holds once the rebuilt record restores each symbol's transactions
to chronological order: for a ledger with distinct symbols whose per-symbol
lists are date-ascending (ties in their original order), grouping the
date-ascending stable re-sort of `export_transactions_csv`'s rows by symbol
reproduces the ledger exactly, and re-importing it therefore reproduces the
same Holdings and RealizedProfit state; rebuilding in the export's own
(date-descending) order can change the state, per the counterexample. -/
theorem export_roundtrip_amended :
    ∀ (realized : List (String × Rat)) (ledger : Ledger),
      (ledger.map Prod.fst).Nodup →
      (∀ pr ∈ ledger, pr.2.Pairwise (fun a b => a.date ≤ b.date)) →
      rebuildLedger ledger (export_transactions_csv realized ledger) = ledger ∧
      (∀ p, import_from_json p (ImportData.parsed (toRawLedger
              (rebuildLedger ledger (export_transactions_csv realized ledger))))
            = import_from_json p (ImportData.parsed (toRawLedger ledger))) := by
  intro realized ledger hnd hasc
  have hmain : rebuildLedger ledger (export_transactions_csv realized ledger)
      = ledger := by
    have hper : ∀ pr ∈ ledger,
        (pr.1, ((sortRowsAsc (export_transactions_csv realized ledger)).filter
            (fun r => decide (r.symbol = pr.1))).map rowToTx) = pr := by
      intro pr hpr
      have hlook : alookup pr.1 ledger = some pr.2 :=
        alookup_eq_of_mem pr ledger hpr hnd
      have hchain : (sortRowsAsc (export_transactions_csv realized ledger)).filter
            (fun r => decide (r.symbol = pr.1))
          = pr.2.map (csvRowOf realized pr.2 pr.1) := by
        rw [export_transactions_csv, filter_sortRowsAsc, filter_sortRowsDesc,
          filter_flatRows realized pr.1 ledger pr.2 hnd hlook]
        apply sortAsc_sortDesc_of_sorted
        rw [List.pairwise_map]
        exact hasc pr hpr
      rw [hchain, List.map_map]
      have hid : rowToTx ∘ csvRowOf realized pr.2 pr.1 = id := by
        funext t
        exact rowToTx_csvRowOf realized pr.2 pr.1 t
      rw [hid, List.map_id]
    calc rebuildLedger ledger (export_transactions_csv realized ledger)
        = ledger.map id := List.map_congr_left hper
      _ = ledger := List.map_id ledger
  exact ⟨hmain, fun p => by rw [hmain]⟩

/-- Witness for C8 amended: the demo ledger (one symbol, ascending dates)
survives the export / chronological-rebuild round trip, and re-importing the
rebuilt record gives the same portfolio. -/
theorem export_roundtrip_amended_witness :
    rebuildLedger demoLedger
        (export_transactions_csv demoPortfolio.realized_profits demoLedger)
      = demoLedger ∧
    import_from_json Portfolio.empty (ImportData.parsed (toRawLedger
        (rebuildLedger demoLedger
          (export_transactions_csv demoPortfolio.realized_profits demoLedger))))
      = import_from_json Portfolio.empty (ImportData.parsed (toRawLedger demoLedger)) := by
  have h := export_roundtrip_amended demoPortfolio.realized_profits demoLedger
    (by decide)
    (by
      intro pr hpr
      simp only [demoLedger, List.mem_singleton] at hpr
      subst hpr
      decide)
  exact ⟨h.1, h.2 Portfolio.empty⟩
